import Mathlib

/-!
# Verification of the BrainV2 semantic code index (`src/scripts/brain_v2.py`)

A shallow embedding of the core components of `brain_v2.py`:
entity extraction (`ASTCodeParser`), intent recognition (`IntentRecognizer`),
the dependency graph (`CodeGraph`), the LRU result cache (`SmartCache`),
evolution tracking (`BrainV2._track_evolution`), the re-ranking score of
`BrainV2.query`, and the not-ready guards of the public operations.

Conventions of the embedding:
* Python strings are Lean `String`s; character-level work is done on `List Char`.
  The queries and sources under consideration are ASCII, and the embedded
  character classes (`\w`, `[A-Z]`, `str.lower`, `str.strip`) follow Python's
  behaviour on ASCII text.
* Python floats (the multiplicative score boosts 0.8 / 0.7 / 0.6) are modelled
  as exact rationals (`ℚ`); the concrete comparisons proved here are robust to
  the rounding of binary floating point at these magnitudes.
* Python regular-expression *search* (existence of a match) over the simple
  pattern shapes used by the program (word-alternation groups separated by
  `.*`, where `.` does not match a newline) is embedded as an explicit
  existence check over all match positions.
* `dict` is modelled as an insertion-ordered association list (last write
  wins, first-insertion key order), matching CPython semantics; `set` is
  modelled as `Finset`; `deque` as a list used at both ends.
-/

namespace BrainV2

/-! ## Character and string utilities -/

/-- Python's `\w` character class restricted to ASCII: letters, digits, `_`. -/
def isWordChar (c : Char) : Bool :=
  c.isAlpha || c.isDigit || c = '_'

/-- Python's `\s` whitespace class (ASCII part). -/
def isWS (c : Char) : Bool :=
  c = ' ' || c = '\t' || c = '\n' || c = '\r' || c = '\x0b' || c = '\x0c'

/-- ASCII lowercasing of one character, as `str.lower` does on ASCII text. -/
def lowerChar (c : Char) : Char :=
  if c.isUpper then Char.ofNat (c.toNat + 32) else c

/-- `str.lower` on ASCII text. -/
def lowerStr (s : String) : String :=
  (s.toList.map lowerChar).asString

/-- The pattern `pat` occurs in `hay` starting at index `i`. -/
def sublistAt (hay pat : List Char) (i : Nat) : Bool :=
  ((hay.drop i).take pat.length) == pat

/-- Python's `in` on strings: `pat` is a contiguous substring of `hay`. -/
def isInfix (pat hay : List Char) : Bool :=
  (List.range (hay.length + 1)).any fun i => sublistAt hay pat i

/-- `needle in hay` on Python strings. -/
def strContains (hay needle : String) : Bool :=
  isInfix needle.toList hay.toList

/-- A regex word boundary `\b` holds before index `i` (the character before
`i`, if any, is not a word character). -/
def boundaryBefore (s : List Char) (i : Nat) : Bool :=
  i == 0 || !(isWordChar (s.getD (i - 1) ' '))

/-- A regex word boundary `\b` holds after index `j` (the character at `j`,
if any, is not a word character). -/
def boundaryAfter (s : List Char) (j : Nat) : Bool :=
  !(isWordChar (s.getD j ' '))

/-- Maximal run of word characters starting at index `i`. -/
def wordRunFrom (s : List Char) (i : Nat) : List Char :=
  (s.drop i).takeWhile isWordChar

/-- Length of the maximal run of whitespace starting at index `i`. -/
def wsRun (s : List Char) (i : Nat) : Nat :=
  ((s.drop i).takeWhile isWS).length

/-- The segment `[a, b)` of `s` contains no newline (the region a regex `.*`
must be able to span). -/
def noNl (s : List Char) (a b : Nat) : Bool :=
  ((s.drop a).take (b - a)).all (· ≠ '\n')

/-- Number of `'\n'` characters in the first `i` characters of `s`. -/
def nlCountBefore (s : List Char) (i : Nat) : Nat :=
  ((s.take i).filter (· = '\n')).length

/-- Number of whitespace-separated words, as Python's `str.split()` counts
them (runs of non-whitespace). -/
def splitCount : List Char → Nat
  | [] => 0
  | c :: cs =>
    if isWS c then splitCount cs
    else
      let r := cs.takeWhile (fun x => !isWS x)
      splitCount (cs.drop r.length) + 1
termination_by l => l.length
decreasing_by
  all_goals simp only [List.length_drop, List.length_cons]
  all_goals omega

/-- Python `str.strip()`: remove leading and trailing whitespace. -/
def pyStrip (s : String) : String :=
  (((s.toList.dropWhile isWS).reverse.dropWhile isWS).reverse).asString

/-- `pathlib.Path(p).name`: the final path component (separator `/`). -/
def pathName (p : String) : String :=
  ((p.toList.reverse.takeWhile (· ≠ '/')).reverse).asString

/-- `pathlib.Path(p).suffix`: the extension of the final component, empty
when the final component has no dot, starts with its only dot, or ends with
its last dot. -/
def pathSuffix (p : String) : String :=
  let n := (pathName p).toList
  if n.contains '.' then
    let afterDot := n.reverse.takeWhile (· ≠ '.')
    let i := n.length - 1 - afterDot.length
    if 0 < i ∧ i < n.length - 1 then (n.drop i).asString else ""
  else ""

/-! ## Decimal rendering of naturals

Models Python's `str(int)` for the f-string ids `f"{file_path}:{start_line}"`:
the usual base-10 representation without leading zeroes, `"0"` for zero. -/

/-- Big-endian decimal digits of `n`; `fuel` bounds the recursion depth
(`fuel > n` suffices). -/
def decDigitsAux : Nat → Nat → List Char
  | 0, _ => []
  | fuel + 1, n =>
    if n < 10 then [Nat.digitChar n]
    else decDigitsAux fuel (n / 10) ++ [Nat.digitChar (n % 10)]

/-- Python's `str(n)` for a natural number. -/
def decimalStr (n : Nat) : String :=
  (decDigitsAux (n + 1) n).asString

/-- Decimal value of a digit list, inverse of `decDigitsAux`. -/
def decValue (l : List Char) : Nat :=
  l.foldl (fun a c => 10 * a + (c.toNat - 48)) 0

theorem decValue_append_digit (l : List Char) (c : Char) :
    decValue (l ++ [c]) = 10 * decValue l + (c.toNat - 48) := by
  simp [decValue, List.foldl_append]

theorem digitChar_toNat {d : Nat} (h : d < 10) :
    (Nat.digitChar d).toNat = 48 + d := by
  interval_cases d <;> rfl

theorem decValue_decDigitsAux {fuel n : Nat} (h : n < fuel) :
    decValue (decDigitsAux fuel n) = n := by
  induction fuel generalizing n with
  | zero => omega
  | succ fuel ih =>
    by_cases h10 : n < 10
    · simp only [decDigitsAux, if_pos h10, decValue, List.foldl_cons, List.foldl_nil]
      rw [show ((10 : Nat) * 0 = 0) from rfl, Nat.zero_add, digitChar_toNat h10]
      omega
    · have hdiv : n / 10 < n := Nat.div_lt_self (by omega) (by omega)
      simp only [decDigitsAux, if_neg h10]
      rw [decValue_append_digit, ih (by omega), digitChar_toNat (Nat.mod_lt n (by omega))]
      omega

theorem decimalStr_injective : Function.Injective decimalStr := by
  intro m n h
  have hd : decDigitsAux (m + 1) m = decDigitsAux (n + 1) n :=
    congrArg String.data h
  have := congrArg decValue hd
  rwa [decValue_decDigitsAux (Nat.lt_succ_self m),
       decValue_decDigitsAux (Nat.lt_succ_self n)] at this

/-! ## Regex search for the intent cue patterns

Every intent cue in `IntentRecognizer.intent_patterns` has the shape
`\b(alt|…)\b`, optionally repeated with `.*` in between (at most two groups).
`re.search` of such a pattern succeeds iff there are match positions, in
order, for each alternation group, each surrounded by word boundaries, with
no newline inside a region that `.*` has to cross. -/

/-- One alternative of a `\b(…)\b` group matches at index `i`: the literal
occurs there and both edges are word boundaries. -/
def wordAltAt (s : List Char) (i : Nat) (alt : List Char) : Bool :=
  sublistAt s alt i && boundaryBefore s i && boundaryAfter s (i + alt.length)

/-- Match the remaining `.*`-separated groups of a pattern starting no
earlier than `pos` (the `.*` segment `[pos, i)` must contain no newline). -/
def reSearchAux (s : List Char) : Nat → List (List (List Char)) → Bool
  | _, [] => true
  | pos, g :: gs =>
    (List.range (s.length + 1)).any fun i =>
      pos ≤ i && noNl s pos i && g.any fun alt =>
        wordAltAt s i alt && reSearchAux s (i + alt.length) gs

/-- `re.search` of a pattern `\b(g₁)\b.*\b(g₂)\b…` in `s`: the first group
may match anywhere. -/
def reSearch (s : List Char) (groups : List (List String)) : Bool :=
  match groups with
  | [] => true
  | g :: gs =>
    (List.range (s.length + 1)).any fun i =>
      g.any fun alt =>
        wordAltAt s i (alt.toList) && reSearchAux s (i + alt.toList.length) (gs.map (·.map String.toList))

/-! ## `ASTCodeParser._calculate_complexity` -/

/-- The control-flow keywords counted by the complexity heuristic. -/
def cfKeywords : List String :=
  ["if", "else", "for", "while", "match", "try", "catch", "except"]

/-- Count of word-bounded control-flow keyword occurrences
(`\b(if|else|for|while|match|try|catch|except)\b`). -/
def countControlFlow (s : List Char) : Nat :=
  ((List.range s.length).filter fun i =>
    cfKeywords.any fun kw => wordAltAt s i kw.toList).length

/-- The operator characters of the class `[+\-*/%=&|!]`. -/
def opChar (c : Char) : Bool :=
  c = '+' || c = '-' || c = '*' || c = '/' || c = '%' || c = '=' || c = '&' || c = '|' || c = '!'

/-- Count of maximal operator runs of length ≥ 2 (`[+\-*/%=&|!]{2,}`,
non-overlapping greedy matches). -/
def countOpRuns : List Char → Nat
  | [] => 0
  | c :: cs =>
    if opChar c then
      let r := cs.takeWhile opChar
      (if r.length + 1 ≥ 2 then 1 else 0) + countOpRuns (cs.drop r.length)
    else countOpRuns cs
termination_by l => l.length
decreasing_by
  all_goals simp only [List.length_drop, List.length_cons]
  all_goals omega

/-- `ASTCodeParser._calculate_complexity`: control-flow keywords +
multi-character operator runs + 2 × open braces. -/
def calculateComplexity (content : String) : Nat :=
  let s := content.toList
  countControlFlow s + countOpRuns s + 2 * (s.filter (· = '{')).length

/-! ## Data model: `CodeEntity` -/

/-- Kind-specific metadata, modelled as string key/value pairs (the Python
side stores a small `dict` that no claim inspects structurally). -/
abbrev Metadata := List (String × String)

/-- `CodeEntity` from `brain_v2.py` (the `vector` field, filled in by the
external embedder, is modelled as an optional rational vector). -/
structure CodeEntity where
  id : String
  type : String
  name : String
  content : String
  docstring : Option String
  signature : Option String
  file_path : String
  start_line : Nat
  end_line : Nat
  imports : List String
  exports : List String
  dependencies : List String
  complexity : Nat
  vector : Option (List ℚ) := none
  metadata : Metadata := []
deriving DecidableEq, Repr

/-- The f-string id `f"{file_path}:{start_line}"`. -/
def mkId (fp : String) (line : Nat) : String :=
  fp ++ ":" ++ decimalStr line

theorem mkId_injective (fp : String) : Function.Injective (mkId fp) := by
  intro m n h
  apply decimalStr_injective
  have : (mkId fp m).data = (mkId fp n).data := congrArg String.data h
  simp only [mkId, String.data_append] at this
  have := List.append_cancel_left this
  exact String.ext this

/-! ## `ASTCodeParser._extract_imports` -/

/-- Python `str.splitlines()` for `\n`-separated text: no trailing empty
line for text ending in a newline, `[]` for the empty string. -/
def pySplitlines (s : String) : List String :=
  if s = "" then []
  else if s.endsWith "\n" then (s.splitOn "\n").dropLast
  else s.splitOn "\n"

/-- `re.match(r'^from\s+(\S+)\s+import|^import\s+(\S+)', line)`, returning
the first non-empty capture group. -/
def pyImportOfLine (l : List Char) : Option String :=
  let fromBranch : Option String :=
    if sublistAt l "from".toList 0 then
      let j := 4 + wsRun l 4
      if wsRun l 4 = 0 then none
      else
        let t := (l.drop j).takeWhile (fun c => !isWS c)
        if t.length = 0 then none
        else
          let k := j + t.length
          if wsRun l k ≥ 1 && sublistAt l "import".toList (k + wsRun l k) then
            some t.asString
          else none
    else none
  match fromBranch with
  | some t => some t
  | none =>
    if sublistAt l "import".toList 0 then
      let j := 6 + wsRun l 6
      if wsRun l 6 = 0 then none
      else
        let t := (l.drop j).takeWhile (fun c => !isWS c)
        if t.length = 0 then none else some t.asString
    else none

/-- `re.match(r'^use\s+([^;]+);', line)`, returning the capture group. -/
def rustUseOfLine (l : List Char) : Option String :=
  if sublistAt l "use".toList 0 then
    if wsRun l 3 = 0 then none
    else
      let j := 3 + wsRun l 3
      let r := (l.drop j).takeWhile (· ≠ ';')
      if r.length = 0 then none
      else if l.getD (j + r.length) ' ' = ';' then some r.asString else none
  else none

/-- A string-literal module name `['"]([^'"]+)['"]` starting at index `q`:
an opening quote, a non-empty run free of both quote characters, a closing
quote. -/
def quotedNameAt (l : List Char) (q : Nat) : Option String :=
  let isQuote : Char → Bool := fun c => c = '\'' || c = '"'
  if isQuote (l.getD q 'x') then
    let r := (l.drop (q + 1)).takeWhile (fun c => !isQuote c)
    if r.length = 0 then none
    else if isQuote (l.getD (q + 1 + r.length) 'x') then some r.asString else none
  else none

/-- `re.match` of the TypeScript/JavaScript import pattern
`^import\s+.*from\s+['"]([^'"]+)['"]|^import\s+['"]([^'"]+)['"]` on one
line, returning the first non-empty capture group (the greedy `.*` of the
first branch selects the last completing `from`). -/
def tsImportOfLine (l : List Char) : Option String :=
  if sublistAt l "import".toList 0 && wsRun l 6 ≥ 1 then
    let j := 6 + wsRun l 6
    let fromCandidates :=
      (List.range (l.length + 1)).filterMap fun k =>
        if j ≤ k && sublistAt l "from".toList k && wsRun l (k + 4) ≥ 1 then
          quotedNameAt l (k + 4 + wsRun l (k + 4))
        else none
    match fromCandidates.getLast? with
    | some t => some t
    | none => quotedNameAt l j
  else none

/-- The extensions recognized by `ASTCodeParser.import_patterns`. -/
def importPatternExts : List String := [".py", ".rs", ".ts", ".tsx", ".js"]

/-- `ASTCodeParser._extract_imports`: apply the per-language import pattern
to every stripped line, collecting capture groups in order. -/
def extractImports (content : String) (ext : String) : List String :=
  if ext ∉ importPatternExts then []
  else
    (pySplitlines content).filterMap fun line =>
      let l := (pyStrip line).toList
      if ext = ".py" then pyImportOfLine l
      else if ext = ".rs" then rustUseOfLine l
      else tsImportOfLine l

/-! ## `ASTCodeParser.parse_rust` -/

/-- Attempt `(kw\s+)?` at index `i`: if the literal keyword followed by at
least one whitespace is present, consume it (second component `true`),
otherwise stay put. -/
def tryOptKw (s : List Char) (i : Nat) (kw : String) : Nat × Bool :=
  if sublistAt s kw.toList i && wsRun s (i + kw.toList.length) ≥ 1 then
    (i + kw.toList.length + wsRun s (i + kw.toList.length), true)
  else (i, false)

/-- Attempt the Rust function pattern `(pub\s+)?(async\s+)?fn\s+(\w+)\s*\(`
at index `i`. Returns (match end, name, `pub` group matched). -/
def rustFnAt (s : List Char) (i : Nat) : Option (Nat × String × Bool) :=
  let (i1, isPub) := tryOptKw s i "pub"
  let (i2, _) := tryOptKw s i1 "async"
  if sublistAt s "fn".toList i2 then
    let w := wsRun s (i2 + 2)
    if w = 0 then none
    else
      let nm := wordRunFrom s (i2 + 2 + w)
      if nm.length = 0 then none
      else
        let k := i2 + 2 + w + nm.length + wsRun s (i2 + 2 + w + nm.length)
        if s.getD k ' ' = '(' then some (k + 1, nm.asString, isPub) else none
  else none

/-- Attempt the Rust struct pattern `(pub\s+)?struct\s+(\w+)` at index `i`.
Returns (match end, name, `pub` group matched). -/
def rustStructAt (s : List Char) (i : Nat) : Option (Nat × String × Bool) :=
  let (i1, isPub) := tryOptKw s i "pub"
  if sublistAt s "struct".toList i1 then
    let w := wsRun s (i1 + 6)
    if w = 0 then none
    else
      let nm := wordRunFrom s (i1 + 6 + w)
      if nm.length = 0 then none else some (i1 + 6 + w + nm.length, nm.asString, isPub)
  else none

/-- `re.finditer`: scan positions left to right, emitting (start, match) and
resuming after each match end. `fuel` bounds the scan (`s.length + 1`
suffices). -/
def finditerAux (m : List Char → Nat → Option (Nat × String × Bool)) (s : List Char) :
    Nat → Nat → List (Nat × Nat × String × Bool)
  | 0, _ => []
  | fuel + 1, i =>
    if i ≥ s.length then []
    else
      match m s i with
      | some (e, nm, flag) => (i, e, nm, flag) :: finditerAux m s fuel e
      | none => finditerAux m s fuel (i + 1)

/-- All matches of a pattern in `s`, as `(start, end, name, flag)`. -/
def finditer (m : List Char → Nat → Option (Nat × String × Bool)) (s : List Char) :
    List (Nat × Nat × String × Bool) :=
  finditerAux m s (s.length + 1) 0

/-- The naive closing-brace scan of `parse_rust`: walking `rest`, increment
on `{`, decrement on `}`, stopping at the index where the counter returns to
zero; `0` when it never does. -/
def braceEndPos : List Char → Nat → Int → Nat
  | [], _, _ => 0
  | c :: cs, i, cnt =>
    if c = '{' then braceEndPos cs (i + 1) (cnt + 1)
    else if c = '}' then
      if cnt - 1 = 0 then i else braceEndPos cs (i + 1) (cnt - 1)
    else braceEndPos cs (i + 1) cnt

/-- `ASTCodeParser.parse_rust`: regex-matched functions (extent found by the
brace scan), then regex-matched structs. -/
def parse_rust (file_path content : String) : List CodeEntity :=
  let s := content.toList
  let fns := (finditer rustFnAt s).map fun (start, _, nm, isPub) =>
    let startLine := nlCountBefore s start + 1
    let rest := s.drop start
    let endPos := braceEndPos rest 0 0
    let funcContent := (rest.take (endPos + 1)).asString
    let endLine := startLine + (funcContent.toList.filter (· = '\n')).length
    { id := mkId file_path startLine
      type := "function"
      name := nm
      content := funcContent
      docstring := none
      signature := some ("fn " ++ nm)
      file_path := file_path
      start_line := startLine
      end_line := endLine
      imports := extractImports content ".rs"
      exports := [nm]
      dependencies := []
      complexity := calculateComplexity funcContent
      metadata := [("visibility", if isPub then "pub" else "private")] : CodeEntity }
  let structs := (finditer rustStructAt s).map fun (start, e, nm, isPub) =>
    let startLine := nlCountBefore s start + 1
    let matchedText := ((s.drop start).take (e - start)).asString
    { id := mkId file_path startLine
      type := "struct"
      name := nm
      content := matchedText
      docstring := none
      signature := some ("struct " ++ nm)
      file_path := file_path
      start_line := startLine
      end_line := startLine
      imports := extractImports content ".rs"
      exports := [nm]
      dependencies := []
      complexity := 0
      metadata := [("visibility", if isPub then "pub" else "private")] : CodeEntity }
  fns ++ structs

/-! ## `ASTCodeParser.parse_typescript` and the fallback chunker -/

/-- Attempt the first alternative of the TS function pattern,
`(export\s+)?(async\s+)?function\s+(\w+)\s*\(`, at index `i`. -/
def tsFnDeclAt (s : List Char) (i : Nat) : Option (Nat × String × Bool) :=
  let (i1, _) := tryOptKw s i "export"
  let (i2, _) := tryOptKw s i1 "async"
  if sublistAt s "function".toList i2 then
    let w := wsRun s (i2 + 8)
    if w = 0 then none
    else
      let nm := wordRunFrom s (i2 + 8 + w)
      if nm.length = 0 then none
      else
        let k := i2 + 8 + w + nm.length + wsRun s (i2 + 8 + w + nm.length)
        if s.getD k ' ' = '(' then some (k + 1, nm.asString, true) else none
  else none

/-- Attempt the second alternative of the TS function pattern,
`const\s+(\w+)\s*=\s*\([^)]*\)\s*=>`, at index `i`. -/
def tsArrowAt (s : List Char) (i : Nat) : Option (Nat × String × Bool) :=
  if sublistAt s "const".toList i then
    let w := wsRun s (i + 5)
    if w = 0 then none
    else
      let nm := wordRunFrom s (i + 5 + w)
      if nm.length = 0 then none
      else
        let j := i + 5 + w + nm.length + wsRun s (i + 5 + w + nm.length)
        if s.getD j 'x' = '=' then
          let k := j + 1 + wsRun s (j + 1)
          if s.getD k 'x' = '(' then
            let args := (s.drop (k + 1)).takeWhile (· ≠ ')')
            let cl := k + 1 + args.length
            if s.getD cl 'x' = ')' then
              let a := cl + 1 + wsRun s (cl + 1)
              if s.getD a 'x' = '=' && s.getD (a + 1) 'x' = '>' then
                some (a + 2, nm.asString, false)
              else none
            else none
          else none
        else none
  else none

/-- The TS function pattern: the regex alternation tries the `function`
declaration branch first at each position, then the arrow branch. -/
def tsFnAt (s : List Char) (i : Nat) : Option (Nat × String × Bool) :=
  match tsFnDeclAt s i with
  | some r => some r
  | none => tsArrowAt s i

/-- Attempt the TS class pattern `(export\s+)?class\s+(\w+)` at index `i`. -/
def tsClassAt (s : List Char) (i : Nat) : Option (Nat × String × Bool) :=
  let (i1, _) := tryOptKw s i "export"
  if sublistAt s "class".toList i1 then
    let w := wsRun s (i1 + 5)
    if w = 0 then none
    else
      let nm := wordRunFrom s (i1 + 5 + w)
      if nm.length = 0 then none else some (i1 + 5 + w + nm.length, nm.asString, true)
  else none

/-- `ASTCodeParser.parse_typescript`: regex-matched functions (both pattern
branches), then regex-matched classes; the entity content is the matched
text, and the export list / arrow metadata are derived from substring tests
on that text, as in the source. -/
def parse_typescript (file_path content : String) : List CodeEntity :=
  let s := content.toList
  let fns := (finditer tsFnAt s).map fun (start, e, nm, _) =>
    let startLine := nlCountBefore s start + 1
    let matchedText := ((s.drop start).take (e - start)).asString
    { id := mkId file_path startLine
      type := "function"
      name := nm
      content := matchedText
      docstring := none
      signature := some ("function " ++ nm)
      file_path := file_path
      start_line := startLine
      end_line := startLine
      imports := extractImports content ".ts"
      exports := if strContains matchedText "export" then [nm] else []
      dependencies := []
      complexity := calculateComplexity matchedText
      metadata := [("arrow", if strContains matchedText "=>" then "true" else "false")] : CodeEntity }
  let classes := (finditer tsClassAt s).map fun (start, e, nm, _) =>
    let startLine := nlCountBefore s start + 1
    let matchedText := ((s.drop start).take (e - start)).asString
    { id := mkId file_path startLine
      type := "class"
      name := nm
      content := matchedText
      docstring := none
      signature := some ("class " ++ nm)
      file_path := file_path
      start_line := startLine
      end_line := startLine
      imports := extractImports content ".ts"
      exports := if strContains matchedText "export" then [nm] else []
      dependencies := []
      complexity := 0
      metadata := [] : CodeEntity }
  fns ++ classes

/-- `ASTCodeParser.parse_javascript` reuses the TS parser. -/
def parse_javascript (file_path content : String) : List CodeEntity :=
  parse_typescript file_path content

/-- `ASTCodeParser._fallback_chunk`: 50-line blocks (0-based start lines),
skipping chunks that are empty after stripping. -/
def fallbackChunk (file_path content : String) : List CodeEntity :=
  let lines := pySplitlines content
  (List.range ((lines.length + 49) / 50)).filterMap fun k =>
    let i := 50 * k
    let chunk := String.intercalate "\n" ((lines.drop i).take 50)
    if pyStrip chunk = "" then none
    else some
      { id := mkId file_path i
        type := "chunk"
        name := "chunk_" ++ decimalStr k
        content := chunk
        docstring := none
        signature := none
        file_path := file_path
        start_line := i
        end_line := min (i + 50) lines.length
        imports := extractImports content (pathSuffix file_path)
        exports := []
        dependencies := []
        complexity := calculateComplexity chunk
        metadata := [("fallback", "true")] : CodeEntity }

/-! ## `ASTCodeParser.parse_file` -/

/-- How `parse_file` arrived at its result: via the per-extension strategy,
via the line-chunking fallback for an unknown extension, or via the
line-chunking fallback after a parse failure. -/
inductive ParseRoute
  | dispatched
  | unknownExt
  | parseError
deriving DecidableEq, Repr

/-- The keys of `ASTCodeParser.EXTENSION_PARSERS`. -/
def extensionParsers : List String := [".py", ".rs", ".ts", ".tsx", ".js"]

/-- The Python-AST extraction of `parse_python` depends on CPython's `ast`
module, an external collaborator; it is abstracted as a function producing
either the extracted entities or a parse failure. -/
abbrev PyAstParser := String → String → Except Unit (List CodeEntity)

/-- `ASTCodeParser.parse_python`: the `ast`-based extraction, falling back
to line chunking when the AST parse raises. -/
def parse_python (pyAst : PyAstParser) (file_path content : String) : List CodeEntity × ParseRoute :=
  match pyAst file_path content with
  | .ok es => (es, .dispatched)
  | .error _ => (fallbackChunk file_path content, .parseError)

/-- `ASTCodeParser.parse_file` with its taken route: dispatch on the file
extension, falling back to line chunking for unknown extensions. The Rust
and TS/JS strategies are total, so the surrounding `try/except` never fires
for them; a Python AST failure is absorbed inside `parse_python`. -/
def parseFileR (pyAst : PyAstParser) (file_path content : String) :
    List CodeEntity × ParseRoute :=
  let ext := pathSuffix file_path
  if ext ∉ extensionParsers then (fallbackChunk file_path content, .unknownExt)
  else if ext = ".py" then parse_python pyAst file_path content
  else if ext = ".rs" then (parse_rust file_path content, .dispatched)
  else if ext = ".ts" ∨ ext = ".tsx" then (parse_typescript file_path content, .dispatched)
  else (parse_javascript file_path content, .dispatched)

/-- `ASTCodeParser.parse_file`. -/
def parseFile (pyAst : PyAstParser) (file_path content : String) : List CodeEntity :=
  (parseFileR pyAst file_path content).1

/-! ## `IntentRecognizer` -/

/-- `QueryIntent` (the specificity score is an exact rational). -/
structure QueryIntent where
  intent_type : String
  entities : List String
  concepts : List String
  context : String
  specificity : ℚ
deriving DecidableEq, Repr

/-- `IntentRecognizer.intent_patterns`, in dictionary insertion order; each
pattern is its list of `\b(…)\b` groups. -/
def intentPatterns : List (String × List (List (List String))) :=
  [("find_code",
    [[["find", "search", "locate", "where", "show", "get"],
      ["code", "function", "class", "struct", "impl", "method"]],
     [["example", "snippet", "reference"]],
     [["how to", "how do"], ["implement", "use", "call"]]]),
   ("explain",
    [[["explain", "what is", "how does", "describe"]],
     [["understand", "clarify", "meaning"]],
     [["why", "how"], ["work", "function", "system"]]]),
   ("debug",
    [[["error", "bug", "issue", "fail", "crash", "broken"]],
     [["fix", "solve", "resolve", "debug"]],
     [["not working", "wrong", "incorrect"]]]),
   ("refactor",
    [[["refactor", "improve", "optimize", "clean", "simplify"]],
     [["better", "efficient", "performance"]],
     [["restructure", "reorganize"]]]),
   ("architect",
    [[["architecture", "design", "pattern", "structure"]],
     [["system", "module", "component", "service"]],
     [["how should", "best way", "approach"]]])]

/-- `IntentRecognizer.concept_keywords`, in dictionary insertion order. -/
def conceptKeywords : List (String × List String) :=
  [("rendering", ["render", "shader", "pipeline", "gpu", "wgpu", "draw", "vertex", "fragment"]),
   ("memory", ["memory", "alloc", "buffer", "cache", "leak", "ownership", "borrow"]),
   ("concurrency", ["thread", "async", "await", "sync", "mutex", "lock", "channel"]),
   ("ui", ["ui", "interface", "widget", "window", "event", "input", "layout"]),
   ("data", ["data", "struct", "class", "object", "array", "vector", "map"]),
   ("network", ["network", "http", "socket", "server", "client", "request"]),
   ("database", ["database", "sql", "query", "table", "index", "lance", "vector"]),
   ("ai", ["ai", "ml", "model", "embedding", "vector", "semantic", "search"])]

/-- Intent category selection: count matching cue patterns per category in
insertion order; a category replaces the running best only with a strictly
higher count; the default is `find_code` with count 0. -/
def chooseIntent (ql : List Char) : String :=
  (intentPatterns.foldl
    (fun best cat =>
      let score := (cat.2.filter fun pat => reSearch ql pat).length
      if score > best.2 then (cat.1, score) else best)
    ("find_code", 0)).1

/-- `re.findall(r'\b([A-Z][a-zA-Z0-9_]*)\b', query)`: capitalized
identifier-like tokens, scanning left to right and resuming after each
match. -/
def capTokensAux (s : List Char) : Nat → Nat → List String
  | 0, _ => []
  | fuel + 1, i =>
    if i ≥ s.length then []
    else if boundaryBefore s i && (s.getD i ' ').isUpper then
      let w := wordRunFrom s i
      w.asString :: capTokensAux s fuel (i + w.length)
    else capTokensAux s fuel (i + 1)

/-- All capitalized identifier-like tokens of the query. -/
def capTokens (s : List Char) : List String :=
  capTokensAux s (s.length + 1) 0

/-- End position (exclusive) of the last `()` occurrence reachable from `j`
without crossing a newline — the end of the greedy `.*\(\)`. -/
def lastParenEnd (s : List Char) (j : Nat) : Option Nat :=
  (((List.range (s.length + 1)).filter fun k =>
    j ≤ k && noNl s j k && sublistAt s "()".toList k).getLast?).map (· + 2)

/-- `re.findall(r'\b([a-z][a-zA-Z0-9_]*)\b.*\(\)', query)`: lowercase
identifier-like tokens followed (on the same line) by `()`, scanning left to
right and resuming after the greedy match end. -/
def lowerParenTokensAux (s : List Char) : Nat → Nat → List String
  | 0, _ => []
  | fuel + 1, i =>
    if i ≥ s.length then []
    else if boundaryBefore s i && (s.getD i ' ').isLower then
      let w := wordRunFrom s i
      match lastParenEnd s (i + w.length) with
      | some e => w.asString :: lowerParenTokensAux s fuel e
      | none => lowerParenTokensAux s fuel (i + 1)
    else lowerParenTokensAux s fuel (i + 1)

/-- All lowercase tokens followed by `()` in the query. -/
def lowerParenTokens (s : List Char) : List String :=
  lowerParenTokensAux s (s.length + 1) 0

/-- `IntentRecognizer.recognize`. -/
def recognize (query : String) : QueryIntent :=
  let ql := (lowerStr query).toList
  let intentType := chooseIntent ql
  let entities := capTokens query.toList ++ lowerParenTokens query.toList
  let concepts := conceptKeywords.filterMap fun ck =>
    if ck.2.any (fun kw => isInfix kw.toList ql) then some ck.1 else none
  let context :=
    if ["design", "architecture", "pattern"].any (fun w => isInfix w.toList ql) then "design"
    else if ["error", "bug", "fix", "debug"].any (fun w => isInfix w.toList ql) then "debugging"
    else if ["performance", "optimize", "fast"].any (fun w => isInfix w.toList ql) then "performance"
    else "implementation"
  let specificity :=
    min 1 ((entities.length : ℚ) * (3/10) + (concepts.length : ℚ) * (1/5)
      + (splitCount query.toList : ℚ) * (1/20))
  { intent_type := intentType
    entities := entities
    concepts := concepts
    context := context
    specificity := specificity }

/-! ## Association-list models of `dict` and `defaultdict(list)` -/

/-- `d[k] = v` on a `dict`: update in place when the key exists (keeping its
position), append otherwise. -/
def dictInsert {α : Type} (m : List (String × α)) (k : String) (v : α) : List (String × α) :=
  if m.any (·.1 = k) then m.map (fun p => if p.1 = k then (k, v) else p) else m ++ [(k, v)]

/-- `d[k].append(v)` on a `defaultdict(list)`. -/
def ddAppend {α : Type} (m : List (String × List α)) (k : String) (v : α) :
    List (String × List α) :=
  if m.any (·.1 = k) then m.map (fun p => if p.1 = k then (p.1, p.2 ++ [v]) else p)
  else m ++ [(k, [v])]

/-- Read of a `defaultdict(list)` (the default-insertion side effect of a
read only adds an empty list, which no later behaviour observes). -/
def ddGet {α : Type} (m : List (String × List α)) (k : String) : List α :=
  (m.lookup k).getD []

/-! ## `CodeGraph` -/

structure CodeGraph where
  nodes : List (String × CodeEntity) := []
  edges : List (String × List String) := []
  import_map : List (String × List String) := []
  reverse_deps : List (String × List String) := []
deriving DecidableEq, Repr

/-- `CodeGraph.add_entity`: store the entity by id, record its imports in
the import map, and for every import matching an export of any currently
known entity (including the entity itself, just stored) append a forward
edge and a reverse edge. -/
def addEntity (g : CodeGraph) (e : CodeEntity) : CodeGraph :=
  let g1 := { g with nodes := dictInsert g.nodes e.id e }
  let g2 := { g1 with
    import_map := e.imports.foldl (fun im imp => ddAppend im imp e.id) g1.import_map }
  e.imports.foldl
    (fun acc imp =>
      g2.nodes.foldl
        (fun acc p =>
          if imp ∈ p.2.exports then
            { acc with
              edges := ddAppend acc.edges e.id p.1
              reverse_deps := ddAppend acc.reverse_deps p.1 e.id }
          else acc)
        acc)
    g2

/-- Forward edges of a node. -/
def edgesOf (g : CodeGraph) (n : String) : List String :=
  ddGet g.edges n

/-- One iteration of the loop body of `CodeGraph.get_related`: everything in
the frontier joins the related set, and the new frontier is the union of the
frontier's forward edges minus the updated related set. -/
def relStep (g : CodeGraph) (p : Finset String × Finset String) :
    Finset String × Finset String :=
  let related := p.1 ∪ p.2
  (related, (p.2.biUnion fun n => (edgesOf g n).toFinset) \ related)

/-- `CodeGraph.get_related`: run the loop `depth` times starting from an
empty related set and the frontier `{entity_id}`; the returned collection is
a Python `set`, modelled as a `Finset`. -/
def getRelated (g : CodeGraph) (entity_id : String) (depth : Nat) : Finset String :=
  ((relStep g)^[depth] (∅, {entity_id})).1

/-- `CodeGraph.get_callers`. -/
def getCallers (g : CodeGraph) (entity_id : String) : List String :=
  (g.reverse_deps.lookup entity_id).getD []

/-- `CodeGraph.find_by_name`: ids of entities whose name case-insensitively
equals or contains the query name. -/
def findByName (g : CodeGraph) (name : String) : List String :=
  (g.nodes.filter fun p =>
    lowerStr p.2.name = lowerStr name
      || strContains (lowerStr p.2.name) (lowerStr name)).map (·.1)

/-! ## `SmartCache` -/

structure SmartCache (α : Type) where
  cache : List (String × α) := []
  access_order : List String := []
  max_size : Nat := 100
deriving DecidableEq, Repr

/-- `SmartCache.get`: on a hit, promote the key to most-recently-used and
return the value; on a miss return `None` and leave the state unchanged. -/
def cacheGet {α : Type} (s : SmartCache α) (k : String) : Option α × SmartCache α :=
  match s.cache.lookup k with
  | some v => (some v, { s with access_order := s.access_order.erase k ++ [k] })
  | none => (none, s)

/-- `SmartCache.put`: refresh an existing key in place; otherwise evict the
least-recently-used key when at capacity, then append. An eviction attempt
on an empty access deque raises `IndexError` in Python before any mutation;
the model returns the state unchanged at that point. -/
def cachePut {α : Type} (s : SmartCache α) (k : String) (v : α) : SmartCache α :=
  if (s.cache.lookup k).isSome then
    { s with
      cache := s.cache.map (fun p => if p.1 = k then (k, v) else p)
      access_order := s.access_order.erase k ++ [k] }
  else if s.cache.length ≥ s.max_size then
    match s.access_order with
    | [] => s
    | lru :: rest =>
      { s with
        cache := (s.cache.filter (·.1 ≠ lru)) ++ [(k, v)]
        access_order := rest ++ [k] }
  else
    { s with cache := s.cache ++ [(k, v)], access_order := s.access_order ++ [k] }

/-! ## `BrainV2._track_evolution` -/

/-- One `remember(..., kind="evolution", context=file_path)` call emitted by
the evolution tracker. -/
structure EvoRecord where
  desc : String
  kind : String
  context : String
deriving DecidableEq, Repr

/-- The name-keyed map `{e.name: e for e in entities if e.type in
('function', 'method', 'class')}`. -/
def entityMap (es : List CodeEntity) : List (String × CodeEntity) :=
  (es.filter fun e => e.type ∈ (["function", "method", "class"] : List String)).foldl
    (fun m e => dictInsert m e.name e) []

/-- f-string rendering of an optional signature (`None` for the absent
case). -/
def sigShow : Option String → String
  | some s => s
  | none => "None"

/-- Description of a modification record, with the signature-change note
appended exactly when the signature strings differ. -/
def modDesc (fileName name : String) (oldE newE : CodeEntity) : String :=
  "Modified " ++ newE.type ++ " '" ++ name ++ "' in " ++ fileName ++
    (if newE.signature ≠ oldE.signature then
      " (Signature changed: " ++ sigShow oldE.signature ++ " -> " ++ sigShow newE.signature ++ ")"
     else "")

/-- Description of a creation record. -/
def createdDesc (fileName name : String) (newE : CodeEntity) : String :=
  "Created new " ++ newE.type ++ " '" ++ name ++ "' in " ++ fileName

/-- Description of a deletion record. -/
def deletedDesc (fileName name : String) (oldE : CodeEntity) : String :=
  "Deleted " ++ oldE.type ++ " '" ++ name ++ "' from " ++ fileName

/-- The body of the modification/creation loop of `_track_evolution`, for
one entry of the new map: a modification record when the name is in the old
map and the trimmed contents differ, a creation record when the name is not
in the old map, nothing otherwise. -/
def modStep (fileName file_path : String) (oldMap : List (String × CodeEntity))
    (acc : List EvoRecord) (p : String × CodeEntity) : List EvoRecord :=
  match oldMap.lookup p.1 with
  | some oldE =>
    if pyStrip p.2.content ≠ pyStrip oldE.content then
      acc ++ [⟨modDesc fileName p.1 oldE p.2, "evolution", file_path⟩]
    else acc
  | none => acc ++ [⟨createdDesc fileName p.1 p.2, "evolution", file_path⟩]

/-- The body of the deletion loop of `_track_evolution`, for one entry of
the old map. -/
def delStep (fileName file_path : String) (newMap : List (String × CodeEntity))
    (acc : List EvoRecord) (p : String × CodeEntity) : List EvoRecord :=
  if (newMap.lookup p.1).isNone then
    acc ++ [⟨deletedDesc fileName p.1 p.2, "evolution", file_path⟩]
  else acc

/-- `BrainV2._track_evolution`: iterate the new map emitting modification
and creation records, then the old map emitting deletion records. -/
def trackEvolution (file_path : String) (old new : List CodeEntity) : List EvoRecord :=
  let oldMap := entityMap old
  let newMap := entityMap new
  let fileName := pathName file_path
  newMap.foldl (modStep fileName file_path oldMap) []
    ++ oldMap.foldl (delStep fileName file_path newMap) []

/-! ## The re-ranking score of `BrainV2.query` -/

/-- Python truthiness of the reconstructed docstring field. -/
def docTruthy : Option String → Bool
  | none => false
  | some s => s ≠ ""

/-- The kind boost applies: intent `find_code` and a function/class/method
entity. -/
def kindBoostApplies (intent : QueryIntent) (e : CodeEntity) : Bool :=
  intent.intent_type = "find_code" && e.type ∈ (["function", "class", "method"] : List String)

/-- The documentation boost applies: intent `explain` and a truthy
docstring. -/
def docBoostApplies (intent : QueryIntent) (e : CodeEntity) : Bool :=
  intent.intent_type = "explain" && docTruthy e.docstring

/-- The entity-name boost applies: some recognized entity token is a
case-insensitive substring of the entity's name. -/
def nameBoostApplies (intent : QueryIntent) (e : CodeEntity) : Bool :=
  !intent.entities.isEmpty
    && intent.entities.any fun ent => strContains (lowerStr e.name) (lowerStr ent)

/-- The concept boost applies: some recognized concept tag is a
case-insensitive substring of the entity's content. -/
def conceptBoostApplies (intent : QueryIntent) (e : CodeEntity) : Bool :=
  !intent.concepts.isEmpty
    && intent.concepts.any fun c => strContains (lowerStr e.content) (lowerStr c)

/-- The multiplicative re-ranking of `BrainV2.query` (stage 3), starting
from the store's distance: ×0.8 for a kind match under `find_code`, or ×0.7
for documentation under `explain`; ×0.6 for an entity-name token match
(applied once); ×0.7 for a concept containment (applied once). The float
factors are modelled as exact rationals. -/
def rerankScore (intent : QueryIntent) (dist : ℚ) (e : CodeEntity) : ℚ :=
  let s1 :=
    if intent.intent_type = "find_code" then
      (if e.type ∈ (["function", "class", "method"] : List String) then dist * (4/5) else dist)
    else if intent.intent_type = "explain" then
      (if docTruthy e.docstring then dist * (7/10) else dist)
    else dist
  let s2 := if nameBoostApplies intent e then s1 * (3/5) else s1
  if conceptBoostApplies intent e then s2 * (7/10) else s2

/-! ## `BrainV2` state and public operations

The vector store, the embedder and the clock are external collaborators
(§6 of the spec); they are passed in as a `Collab` record of abstract
functions. The vector store's `search` is modelled as a function from the
current rows and a query vector to candidate rows paired with their
distances; the JSON round-trip of the metadata column is modelled as the
identity (the column is stored structurally). -/

/-- A row of the `codebase_v2` table. -/
structure TableRow where
  vector : List ℚ
  entity_id : String
  type : String
  name : String
  content : String
  docstring : String
  signature : String
  file_path : String
  start_line : Nat
  end_line : Nat
  imports : List String
  exports : List String
  complexity : Nat
  metadata : Metadata
  timestamp : ℚ
deriving DecidableEq, Repr

/-- A row of the `memories_v1` table. -/
structure MemoryRow where
  vector : List ℚ
  content : String
  type : String
  context : String
  timestamp : ℚ
deriving DecidableEq, Repr

/-- `SearchResult`. -/
structure SearchResult where
  entity : CodeEntity
  score : ℚ
  reason : String
  related : List String
deriving DecidableEq, Repr

/-- One entry of the bounded recent-query history. -/
structure QueryHist where
  text : String
  intent : String
  timestamp : ℚ
  results : List String
deriving DecidableEq, Repr

/-- A memory hit returned by `BrainV2.recall`. -/
structure RecallHit where
  content : String
  type : String
  context : String
  score : ℚ
  timestamp : ℚ
deriving DecidableEq, Repr

/-- The external collaborators of `BrainV2`. -/
structure Collab where
  embed : String → List ℚ
  searchTable : List TableRow → List ℚ → Nat → List (TableRow × ℚ)
  searchMemory : List MemoryRow → List ℚ → Nat → List (MemoryRow × ℚ)
  now : ℚ

/-- The mutable state of a `BrainV2` instance. -/
structure BrainState where
  ready : Bool := false
  entity_cache : List (String × List CodeEntity) := []
  code_graph : CodeGraph := {}
  smart_cache : SmartCache (List SearchResult) := {}
  table : List TableRow := []
  memory_table : List MemoryRow := []
  query_history : List QueryHist := []

/-- `deque(maxlen=50).append`. -/
def histAppend (h : List QueryHist) (e : QueryHist) : List QueryHist :=
  if h.length ≥ 50 then h.tail ++ [e] else h ++ [e]

/-- `BrainV2._reconstruct_entity` (docstring and signature come back as the
stored strings, possibly empty). -/
def reconstructEntity (r : TableRow) : CodeEntity :=
  { id := r.entity_id
    type := r.type
    name := r.name
    content := r.content
    docstring := some r.docstring
    signature := some r.signature
    file_path := r.file_path
    start_line := r.start_line
    end_line := r.end_line
    imports := r.imports
    exports := r.exports
    dependencies := []
    complexity := r.complexity
    vector := none
    metadata := r.metadata }

/-- `BrainV2._explain_match`. -/
def explainMatch (intent : QueryIntent) (e : CodeEntity) : String :=
  let reasons : List String :=
    (if intent.intent_type = "find_code" then
      ["Matches " ++ e.type ++ " '" ++ e.name ++ "'"]
     else if intent.intent_type = "explain" then
      (if docTruthy e.docstring then ["Has documentation"] else []) ++ ["Describes " ++ e.type]
     else [])
    ++ (if nameBoostApplies intent e then ["Name matches query"] else [])
    ++ (if !intent.concepts.isEmpty then
          match intent.concepts.find? (fun c => strContains (lowerStr e.content) (lowerStr c)) with
          | some c => ["Contains " ++ c]
          | none => []
        else [])
  if reasons.isEmpty then "Semantic similarity" else String.intercalate ", " reasons

/-- The names, in the graph, of the related ids of an entity (CPython
iterates the `set` in unspecified order; the model fixes the sorted
order). -/
def relatedNames (g : CodeGraph) (entity_id : String) (depth : Nat) : List String :=
  ((getRelated g entity_id depth).sort (· ≤ ·)).filterMap fun rid =>
    (g.nodes.lookup rid).map (·.name)

/-- `BrainV2.query`: the not-ready sentinel, the cache lookup, intent
recognition, vector search for `2 × n` candidates, re-ranking, ascending
stable sort, truncation to `n`, cache store and history append. -/
def queryOp (collab : Collab) (s : BrainState) (text : String) (n : Nat) :
    List SearchResult × BrainState :=
  if !s.ready then ([], s)
  else
    let cacheKey := text ++ ":" ++ decimalStr n
    match cacheGet s.smart_cache cacheKey with
    | (some cached, sc) => (cached, { s with smart_cache := sc })
    | (none, _) =>
      let intent := recognize text
      let vector := collab.embed text
      let vectorResults := collab.searchTable s.table vector (n * 2)
      let results := vectorResults.map fun vr =>
        let entity := reconstructEntity vr.1
        let score := rerankScore intent vr.2 entity
        { entity := entity
          score := score
          reason := explainMatch intent entity
          related := (relatedNames s.code_graph entity.id 1).take 3 : SearchResult }
      let sorted := results.mergeSort fun a b => decide (a.score ≤ b.score)
      let finalResults := sorted.take n
      let sc := cachePut s.smart_cache cacheKey finalResults
      let hist := histAppend s.query_history
        ⟨text, intent.intent_type, collab.now, finalResults.map (·.entity.id)⟩
      (finalResults, { s with smart_cache := sc, query_history := hist })

/-- `BrainV2.remember`: embed `f"{kind}: {content} {context}"`, append a
memory row, return the confirmation string. -/
def rememberOp (collab : Collab) (s : BrainState) (content kind context : String) :
    String × BrainState :=
  if !s.ready then ("Brain not ready", s)
  else
    let vector := collab.embed (kind ++ ": " ++ content ++ " " ++ context)
    ("Memory stored: " ++ content.take 50 ++ "...",
     { s with memory_table := s.memory_table ++ [⟨vector, content, kind, context, collab.now⟩] })

/-- `BrainV2.recall`: embed the query and search the memory table. -/
def recallOp (collab : Collab) (s : BrainState) (q : String) (limit : Nat) :
    List RecallHit × BrainState :=
  if !s.ready then ([], s)
  else
    let vector := collab.embed q
    let results := collab.searchMemory s.memory_table vector limit
    (results.map fun r => ⟨r.1.content, r.1.type, r.1.context, r.2, r.1.timestamp⟩, s)

/-- The semantic text embedded for an entity during indexing. -/
def semanticText (e : CodeEntity) : String :=
  e.type ++ " " ++ e.name
    ++ (if docTruthy e.docstring then " - " ++ e.docstring.getD "" else "")
    ++ (match e.signature with
        | some sig => if sig ≠ "" then " | " ++ sig else ""
        | none => "")
    ++ " | " ++ e.content.take 200

/-- The `codebase_v2` row written for an entity. -/
def rowOf (path : String) (vector : List ℚ) (e : CodeEntity) (now : ℚ) : TableRow :=
  { vector := vector
    entity_id := e.id
    type := e.type
    name := e.name
    content := e.content
    docstring := e.docstring.getD ""
    signature := e.signature.getD ""
    file_path := path
    start_line := e.start_line
    end_line := e.end_line
    imports := e.imports
    exports := e.exports
    complexity := e.complexity
    metadata := e.metadata
    timestamp := now }

/-- `BrainV2.index_file`, with the file content supplied by the caller (the
disk read happens after the extension guard and is external). Parses the
file, runs the evolution tracker against the previous cache entry (emitting
each record through `remember`), deletes the file's old rows, then embeds
each entity, adds it to the graph, refreshes the per-file entity cache and
appends the new rows. -/
def indexFileOp (collab : Collab) (pyAst : PyAstParser) (s : BrainState)
    (path content : String) : BrainState :=
  if !s.ready then s
  else if pathSuffix path ∉ extensionParsers
      ∧ pathSuffix path ∉ ([".rs", ".ts", ".tsx", ".js"] : List String) then s
  else
    let newEntities := parseFile pyAst path content
    let oldEntities := (s.entity_cache.lookup path).getD []
    let s1 :=
      if oldEntities ≠ [] then
        (trackEvolution path oldEntities newEntities).foldl
          (fun st r => (rememberOp collab st r.desc r.kind r.context).2) s
      else s
    let s2 := { s1 with table := s1.table.filter fun r => r.file_path ≠ path }
    let withVecs := newEntities.map fun e =>
      { e with vector := some (collab.embed (semanticText e)) }
    let s3 := { s2 with
      code_graph := withVecs.foldl addEntity s2.code_graph
      entity_cache :=
        if newEntities.isEmpty then s2.entity_cache
        else dictInsert s2.entity_cache path withVecs }
    let chunks := withVecs.map fun e => rowOf path (e.vector.getD []) e collab.now
    if chunks.isEmpty then s3 else { s3 with table := s3.table ++ chunks }

/-- The statistics dictionary of `BrainV2.get_stats`. -/
structure Stats where
  ready : Bool
  entities_indexed : Nat := 0
  cache_size : Nat := 0
  query_history_size : Nat := 0
  graph_nodes : Nat := 0
  graph_edges : Nat := 0
  recent_queries : List QueryHist := []
deriving DecidableEq, Repr

/-- `BrainV2.get_stats`. -/
def getStats (s : BrainState) : Stats :=
  if !s.ready then { ready := false }
  else
    { ready := true
      entities_indexed := s.code_graph.nodes.length
      cache_size := s.smart_cache.cache.length
      query_history_size := s.query_history.length
      graph_nodes := s.code_graph.nodes.length
      graph_edges := (s.code_graph.edges.map (·.2.length)).sum
      recent_queries := s.query_history.drop (s.query_history.length - 5) }

/-- `brain_v2_purge`: count case-insensitive path matches, delete rows via
the `LIKE '%pattern%'` filter (case-sensitive), drop matching entity-cache
keys and clear the result cache. -/
def purgeOp (s : BrainState) (pattern : String) : String × BrainState :=
  if !s.ready then ("Brain initializing", s)
  else
    let filePaths := s.table.map (·.file_path)
    let count := (filePaths.filter fun fp => strContains (lowerStr fp) (lowerStr pattern)).length
    if count = 0 then ("No entries found matching '" ++ pattern ++ "'", s)
    else
      ("Purged " ++ decimalStr count ++ " entries matching '" ++ pattern ++ "'",
       { s with
          table := s.table.filter fun r => !strContains r.file_path pattern
          entity_cache := s.entity_cache.filter fun p =>
            !strContains (lowerStr p.1) (lowerStr pattern)
          smart_cache := { s.smart_cache with cache := [], access_order := [] } })

/-- The result dictionary of `brain_v2_graph`. -/
inductive GraphResult where
  | err (msg : String)
  | found (entity : CodeEntity) (related : List String) (callers : List String)
deriving DecidableEq, Repr

/-- `brain_v2_graph`: dependency-graph lookup by entity name. The inner
`none` branch is unreachable (`find_by_name` returns keys of `nodes`); it
mirrors the `KeyError`-free access of the source. -/
def graphOp (s : BrainState) (entityName : String) : GraphResult :=
  if !s.ready then .err "Brain initializing"
  else
    match findByName s.code_graph entityName with
    | [] => .err "Entity not found"
    | entityId :: _ =>
      match s.code_graph.nodes.lookup entityId with
      | none => .err "Entity not found"
      | some e =>
        .found e (relatedNames s.code_graph entityId 2)
          ((getCallers s.code_graph entityId).filterMap fun cid =>
            (s.code_graph.nodes.lookup cid).map (·.name))

/-! # Theorems

## Association-list (dict) lemmas -/

theorem dictInsert_keys {α : Type} (m : List (String × α)) (k : String) (v : α) :
    (dictInsert m k v).map (·.1)
      = if m.any (·.1 = k) then m.map (·.1) else m.map (·.1) ++ [k] := by
  unfold dictInsert
  split
  · simp only [List.map_map]
    apply List.map_congr_left
    intro p _
    by_cases h : p.1 = k <;> simp [h]
  · simp

theorem dictInsert_keys_nodup {α : Type} {m : List (String × α)} {k : String} {v : α}
    (h : (m.map (·.1)).Nodup) : ((dictInsert m k v).map (·.1)).Nodup := by
  rw [dictInsert_keys]
  split
  · exact h
  · rename_i hany
    have hk : k ∉ m.map (·.1) := by
      intro hmem
      apply hany
      simp only [List.any_eq_true, decide_eq_true_eq]
      rcases List.mem_map.mp hmem with ⟨p, hp, hpk⟩
      exact ⟨p, hp, hpk⟩
    simp only [List.nodup_append, List.nodup_cons, List.not_mem_nil, not_false_iff,
      List.nodup_nil, and_true, List.disjoint_singleton]
    exact ⟨h, by simpa using hk⟩

theorem lookup_self {α : Type} :
    ∀ {m : List (String × α)}, (m.map (·.1)).Nodup →
      ∀ p ∈ m, m.lookup p.1 = some p.2 := by
  intro m
  induction m with
  | nil => intro _ p hp; cases hp
  | cons q t ih =>
    intro hnd p hp
    simp only [List.map_cons, List.nodup_cons] at hnd
    rcases List.mem_cons.mp hp with rfl | hp
    · simp [List.lookup]
    · have hne : p.1 ≠ q.1 := by
        intro hEq
        exact hnd.1 (hEq ▸ List.mem_map.mpr ⟨p, hp, rfl⟩)
      have hbeq : (p.1 == q.1) = false := beq_eq_false_iff_ne.mpr hne
      simp only [List.lookup, hbeq]
      exact ih hnd.2 p hp

theorem foldl_dictInsert_keys_nodup (es : List CodeEntity) :
    ∀ m : List (String × CodeEntity), (m.map (·.1)).Nodup →
      ((es.foldl (fun m e => dictInsert m e.name e) m).map (·.1)).Nodup := by
  induction es with
  | nil => intro m h; exact h
  | cons e t ih => intro m h; exact ih _ (dictInsert_keys_nodup h)

theorem entityMap_keys_nodup (es : List CodeEntity) :
    ((entityMap es).map (·.1)).Nodup :=
  foldl_dictInsert_keys_nodup _ [] (by simp)

/-! ## Evolution-tracker lemmas and claim C1 -/

theorem foldl_modStep_self (fileName fp : String) (om : List (String × CodeEntity)) :
    ∀ (l : List (String × CodeEntity)) (acc : List EvoRecord),
      (∀ p ∈ l, om.lookup p.1 = some p.2) →
      l.foldl (modStep fileName fp om) acc = acc := by
  intro l
  induction l with
  | nil => intro acc _; rfl
  | cons p t ih =>
    intro acc h
    have hp := h p (List.mem_cons_self p t)
    simp only [List.foldl_cons, modStep, hp, ne_eq, not_true_eq_false, if_neg,
      not_not.mpr rfl, if_false]
    exact ih acc fun q hq => h q (List.mem_cons_of_mem _ hq)

theorem foldl_delStep_self (fileName fp : String) (nm : List (String × CodeEntity)) :
    ∀ (l : List (String × CodeEntity)) (acc : List EvoRecord),
      (∀ p ∈ l, (nm.lookup p.1).isSome) →
      l.foldl (delStep fileName fp nm) acc = acc := by
  intro l
  induction l with
  | nil => intro acc _; rfl
  | cons p t ih =>
    intro acc h
    have hp := h p (List.mem_cons_self p t)
    have : (nm.lookup p.1).isNone = false := by
      cases hl : nm.lookup p.1
      · rw [hl] at hp; cases hp
      · rfl
    simp only [List.foldl_cons, delStep, this, Bool.false_eq_true, if_false]
    exact ih acc fun q hq => h q (List.mem_cons_of_mem _ hq)

/-- Diffing an entity list against itself emits no evolution records. -/
theorem trackEvolution_self (fp : String) (es : List CodeEntity) :
    trackEvolution fp es es = [] := by
  have hnd := entityMap_keys_nodup es
  simp only [trackEvolution]
  rw [foldl_modStep_self _ _ _ _ _ (fun p hp => lookup_self hnd p hp),
    foldl_delStep_self _ _ _ _ _ (fun p hp => by rw [lookup_self hnd p hp]; rfl)]
  rfl

/-- C1: for every file path and content (any language strategy, the Python
AST collaborator included), extracting entities from the same unchanged
content twice yields the identical entity list, and running the evolution
tracker on the two resulting entity lists emits zero evolution records. -/
theorem C1_reindex_unchanged_content (pyAst : PyAstParser) (path content : String) :
    parseFile pyAst path content = parseFile pyAst path content ∧
    trackEvolution path (parseFile pyAst path content) (parseFile pyAst path content) = [] :=
  ⟨rfl, trackEvolution_self path (parseFile pyAst path content)⟩

/-! ## Claim C6: per-name characterization of the evolution tracker -/

/-- Per-claim characterization of what one name of the new map produces: a
single modification record (note appended exactly when the signature strings
differ, see `modDesc`) when the name is also in the old map with different
trimmed content; a single creation record when the name is new; nothing
otherwise. -/
def modRecordFor (fileName file_path : String) (oldMap : List (String × CodeEntity))
    (p : String × CodeEntity) : Option EvoRecord :=
  match oldMap.lookup p.1 with
  | some oldE =>
    if pyStrip p.2.content ≠ pyStrip oldE.content then
      some ⟨modDesc fileName p.1 oldE p.2, "evolution", file_path⟩
    else none
  | none => some ⟨createdDesc fileName p.1 p.2, "evolution", file_path⟩

/-- Per-claim characterization of what one name of the old map produces: a
single deletion record when the name is absent from the new map. -/
def delRecordFor (fileName file_path : String) (newMap : List (String × CodeEntity))
    (p : String × CodeEntity) : Option EvoRecord :=
  if (newMap.lookup p.1).isNone then
    some ⟨deletedDesc fileName p.1 p.2, "evolution", file_path⟩
  else none

theorem modStep_eq_append (fileName fp : String) (om : List (String × CodeEntity))
    (acc : List EvoRecord) (p : String × CodeEntity) :
    modStep fileName fp om acc p = acc ++ (modRecordFor fileName fp om p).toList := by
  simp only [modStep, modRecordFor]
  cases om.lookup p.1
  · simp
  · split
    · split <;> simp_all
    · simp_all

theorem delStep_eq_append (fileName fp : String) (nm : List (String × CodeEntity))
    (acc : List EvoRecord) (p : String × CodeEntity) :
    delStep fileName fp nm acc p = acc ++ (delRecordFor fileName fp nm p).toList := by
  simp only [delStep, delRecordFor]
  split <;> simp

theorem foldl_step_filterMap {β : Type} (f : β → Option EvoRecord)
    (step : List EvoRecord → β → List EvoRecord)
    (hstep : ∀ acc p, step acc p = acc ++ (f p).toList) :
    ∀ (l : List β) (acc : List EvoRecord), l.foldl step acc = acc ++ l.filterMap f := by
  intro l
  induction l with
  | nil => intro acc; simp
  | cons p t ih =>
    intro acc
    rw [List.foldl_cons, hstep, ih]
    cases h : f p <;> simp [List.filterMap_cons, h]

/-- C6: the evolution tracker emits, per name of the (duplicate-free)
name-keyed new map, exactly the modification/creation record the claim
describes, followed by, per name of the old map, exactly the deletion
record the claim describes. Names present in both maps with equal trimmed
content produce nothing; a modification record carries the signature-change
note exactly when the signature strings differ. -/
theorem C6_track_evolution_records (fp : String) (old new : List CodeEntity) :
    trackEvolution fp old new
      = (entityMap new).filterMap (modRecordFor (pathName fp) fp (entityMap old))
        ++ (entityMap old).filterMap (delRecordFor (pathName fp) fp (entityMap new))
      ∧ ((entityMap new).map (·.1)).Nodup ∧ ((entityMap old).map (·.1)).Nodup := by
  refine ⟨?_, entityMap_keys_nodup new, entityMap_keys_nodup old⟩
  simp only [trackEvolution]
  rw [foldl_step_filterMap _ _ (modStep_eq_append (pathName fp) fp (entityMap old)),
    foldl_step_filterMap _ _ (delStep_eq_append (pathName fp) fp (entityMap new))]
  simp

/-! ## Claim C2: `get_related` at depth 1 -/

/-- A two-node graph: `B` exports the name `b` that `A` imports. -/
def c2entityB : CodeEntity :=
  { id := "B", type := "function", name := "b", content := "fn b() {}", docstring := none,
    signature := some "fn b", file_path := "f.rs", start_line := 1, end_line := 1,
    imports := [], exports := ["b"], dependencies := [], complexity := 0 }

/-- The importer node `A`. -/
def c2entityA : CodeEntity :=
  { id := "A", type := "function", name := "a", content := "fn a() { b() }", docstring := none,
    signature := some "fn a", file_path := "f.rs", start_line := 3, end_line := 3,
    imports := ["b"], exports := ["a"], dependencies := [], complexity := 0 }

/-- The graph after adding `B` then `A`; it has the single forward edge
`A → B`. -/
def c2graph : CodeGraph :=
  addEntity (addEntity {} c2entityB) c2entityA

/-- C2 counterexample: in `c2graph` the entity `A` has exactly one direct
dependency `B`, yet `get_related("A", depth=1)` does not return `{B}` — it
returns `{A}` itself, because the first loop iteration only moves the
initial frontier into the related set. -/
theorem C2_counterexample :
    edgesOf c2graph "A" = ["B"]
      ∧ getRelated c2graph "A" 1 = ({"A"} : Finset String)
      ∧ getRelated c2graph "A" 1 ≠ ({"B"} : Finset String) := by
  refine ⟨by decide, by decide, by decide⟩

/-- C2 amended: for every graph and entity id, `get_related` with depth 1
returns exactly the singleton of the queried id; the one-hop forward-edge
targets require depth 2, which returns the queried id together with its
direct dependencies. -/
theorem C2_get_related_depth_one (g : CodeGraph) (id : String) :
    getRelated g id 1 = {id}
      ∧ getRelated g id 2 = {id} ∪ (edgesOf g id).toFinset := by
  have h1 : relStep g (∅, {id}) = ({id}, (edgesOf g id).toFinset \ {id}) := by
    simp [relStep]
  constructor
  · show ((relStep g)^[1] (∅, {id})).1 = {id}
    rw [Function.iterate_one, h1]
  · show ((relStep g)^[2] (∅, {id})).1 = {id} ∪ (edgesOf g id).toFinset
    rw [show (2 : Nat) = 1 + 1 from rfl, Function.iterate_succ_apply, Function.iterate_one, h1]
    simp [relStep, Finset.union_sdiff_self_eq_union]

/-! ## Claim C4: recognizing `"find the parseConfig function"` -/

/-- C4 counterexample: `parseConfig` is not among the extracted entity
tokens for this query — it neither starts with a capital letter nor is
followed by `()`, so both extraction regexes miss it. -/
theorem C4_counterexample :
    "parseConfig" ∉ (recognize "find the parseConfig function").entities := by
  decide

/-- C4 amended: the query classifies as `find_code`, but the extracted
entity-token list is empty (in particular `parseConfig` is not extracted). -/
theorem C4_find_parseConfig :
    (recognize "find the parseConfig function").intent_type = "find_code"
      ∧ (recognize "find the parseConfig function").entities = [] := by
  constructor <;> decide

/-! ## Claim C3: the entity-name boost versus the other boosts -/

/-- The re-ranking score factors into the base distance times one factor
per boost condition. -/
theorem rerankScore_factored (intent : QueryIntent) (d : ℚ) (e : CodeEntity) :
    rerankScore intent d e
      = d * (if kindBoostApplies intent e then 4/5 else 1)
          * (if docBoostApplies intent e then 7/10 else 1)
          * (if nameBoostApplies intent e then 3/5 else 1)
          * (if conceptBoostApplies intent e then 7/10 else 1) := by
  have hne : ("find_code" : String) ≠ "explain" := by decide
  have hne2 : ("explain" : String) ≠ "find_code" := by decide
  by_cases hf : intent.intent_type = "find_code"
  · have he : ¬ intent.intent_type = "explain" := by rw [hf]; exact hne
    by_cases hm : e.type ∈ (["function", "class", "method"] : List String) <;>
      by_cases hn : nameBoostApplies intent e = true <;>
      by_cases hc : conceptBoostApplies intent e = true <;>
      simp only [rerankScore, kindBoostApplies, docBoostApplies, hne, hne2, hf, he, hm, hn, hc,
        Bool.and_eq_true, decide_eq_true_eq, eq_self_iff_true, if_true, if_false,
        Bool.not_eq_true, and_true, and_false, true_and, false_and, if_pos, if_neg,
        not_true_eq_false, not_false_eq_true, Bool.false_eq_true, ite_true, ite_false] <;>
      ring
  · by_cases he : intent.intent_type = "explain"
    · by_cases hd : docTruthy e.docstring = true <;>
        by_cases hn : nameBoostApplies intent e = true <;>
        by_cases hc : conceptBoostApplies intent e = true <;>
        simp only [rerankScore, kindBoostApplies, docBoostApplies, hne, hne2, hf, he, hd, hn, hc,
          Bool.and_eq_true, decide_eq_true_eq, eq_self_iff_true, if_true, if_false,
          Bool.not_eq_true, and_true, and_false, true_and, false_and, if_pos, if_neg,
          not_true_eq_false, not_false_eq_true, Bool.false_eq_true, ite_true, ite_false] <;>
        ring
    · by_cases hn : nameBoostApplies intent e = true <;>
        by_cases hc : conceptBoostApplies intent e = true <;>
        simp only [rerankScore, kindBoostApplies, docBoostApplies, hne, hne2, hf, he, hn, hc,
          Bool.and_eq_true, decide_eq_true_eq, eq_self_iff_true, if_true, if_false,
          Bool.not_eq_true, and_true, and_false, true_and, false_and, if_pos, if_neg,
          not_true_eq_false, not_false_eq_true, Bool.false_eq_true, ite_true, ite_false] <;>
        ring

/-- The query of claim C3's counterexample: recognized with intent
`find_code`, entity token `Foo` and concept `data`. -/
def c3query : String := "find the Foo function data"

/-- The recognized intent of `c3query`. -/
def c3intent : QueryIntent := recognize c3query

/-- A candidate whose name matches the recognized token `Foo` but which
receives no other boost. -/
def c3A : CodeEntity :=
  { id := "x.rs:1", type := "chunk", name := "FooBar", content := "hello", docstring := none,
    signature := none, file_path := "x.rs", start_line := 1, end_line := 1,
    imports := [], exports := [], dependencies := [], complexity := 0 }

/-- A candidate without a name match but with the kind boost (a `function`
under `find_code`) and the concept boost (its content contains `data`). -/
def c3B : CodeEntity :=
  { id := "x.rs:9", type := "function", name := "qux", content := "data processing",
    docstring := none, signature := none, file_path := "x.rs", start_line := 9, end_line := 9,
    imports := [], exports := [], dependencies := [], complexity := 0 }

/-- C3 counterexample: for the query `"find the Foo function data"` and two
candidates at equal base distance 1, the name-matched candidate `c3A`
(factor 0.6) scores 3/5, while the unmatched candidate `c3B` collects the
kind boost and the concept boost (factor 0.8 × 0.7) and scores 14/25 < 3/5.
So the name-matched candidate does not rank strictly better. -/
theorem C3_counterexample :
    c3intent.entities = ["Foo"]
      ∧ nameBoostApplies c3intent c3A = true
      ∧ nameBoostApplies c3intent c3B = false
      ∧ rerankScore c3intent 1 c3B < rerankScore c3intent 1 c3A
      ∧ ¬ rerankScore c3intent 1 c3A < rerankScore c3intent 1 c3B := by
  have hA : rerankScore c3intent 1 c3A = 3/5 := by
    rw [rerankScore_factored]
    rw [if_neg (by decide : ¬ kindBoostApplies c3intent c3A = true),
      if_neg (by decide : ¬ docBoostApplies c3intent c3A = true),
      if_pos (by decide : nameBoostApplies c3intent c3A = true),
      if_neg (by decide : ¬ conceptBoostApplies c3intent c3A = true)]
    norm_num
  have hB : rerankScore c3intent 1 c3B = 14/25 := by
    rw [rerankScore_factored]
    rw [if_pos (by decide : kindBoostApplies c3intent c3B = true),
      if_neg (by decide : ¬ docBoostApplies c3intent c3B = true),
      if_neg (by decide : ¬ nameBoostApplies c3intent c3B = true),
      if_pos (by decide : conceptBoostApplies c3intent c3B = true)]
    norm_num
  refine ⟨by decide, by decide, by decide, ?_, ?_⟩ <;> rw [hA, hB] <;> norm_num

/-- C3 amended: with a positive base distance and with the other three
boost conditions (kind, documentation, concept) agreeing between the two
candidates, the candidate whose name matches a recognized entity token
scores strictly lower (better) than the one whose name does not. -/
theorem C3_name_match_ranks_better (intent : QueryIntent) (d : ℚ) (e₁ e₂ : CodeEntity)
    (hd : 0 < d)
    (hk : kindBoostApplies intent e₁ = kindBoostApplies intent e₂)
    (hdoc : docBoostApplies intent e₁ = docBoostApplies intent e₂)
    (hc : conceptBoostApplies intent e₁ = conceptBoostApplies intent e₂)
    (h₁ : nameBoostApplies intent e₁ = true)
    (h₂ : nameBoostApplies intent e₂ = false) :
    rerankScore intent d e₁ < rerankScore intent d e₂ := by
  rw [rerankScore_factored, rerankScore_factored, ← hk, ← hdoc, ← hc, h₁, h₂]
  simp only [if_true, if_false, Bool.false_eq_true, ite_true, ite_false, mul_one]
  have p1 : (0:ℚ) < (if kindBoostApplies intent e₁ then (4:ℚ)/5 else 1) := by
    split <;> norm_num
  have p2 : (0:ℚ) < (if docBoostApplies intent e₁ then (7:ℚ)/10 else 1) := by
    split <;> norm_num
  have p3 : (0:ℚ) < (if conceptBoostApplies intent e₁ then (7:ℚ)/10 else 1) := by
    split <;> norm_num
  nlinarith [mul_pos (mul_pos hd p1) p2, mul_pos (mul_pos (mul_pos hd p1) p2) p3]

/-- A candidate identical to `c3A` in every boost condition except the
name match. -/
def c3C : CodeEntity :=
  { id := "x.rs:5", type := "chunk", name := "qux", content := "hello", docstring := none,
    signature := none, file_path := "x.rs", start_line := 5, end_line := 5,
    imports := [], exports := [], dependencies := [], complexity := 0 }

/-- Witness for the amended claim C3 at a concrete instance. -/
theorem C3_name_match_witness :
    rerankScore c3intent 1 c3A < rerankScore c3intent 1 c3C :=
  C3_name_match_ranks_better c3intent 1 c3A c3C (by norm_num) (by decide) (by decide)
    (by decide) (by decide) (by decide)

/-! ## Claims C5 and C9: the LRU cache -/

theorem lookup_eq_none_of_not_mem {α : Type} {m : List (String × α)} {k : String}
    (h : k ∉ m.map (·.1)) : m.lookup k = none := by
  induction m with
  | nil => rfl
  | cons q t ih =>
    simp only [List.map_cons, List.mem_cons, not_or] at h
    have hb : (k == q.1) = false := beq_eq_false_iff_ne.mpr h.1
    simp only [List.lookup, hb]
    exact ih h.2

theorem lookup_isSome_of_mem {α : Type} {m : List (String × α)} {k : String}
    (h : k ∈ m.map (·.1)) : (m.lookup k).isSome := by
  induction m with
  | nil => cases h
  | cons q t ih =>
    simp only [List.map_cons, List.mem_cons] at h
    by_cases hk : k = q.1
    · have hb : (k == q.1) = true := beq_iff_eq.mpr hk
      simp [List.lookup, hb]
    · have hb : (k == q.1) = false := beq_eq_false_iff_ne.mpr hk
      simp only [List.lookup, hb]
      exact ih (h.resolve_left hk)

theorem mem_of_lookup_isSome {α : Type} {m : List (String × α)} {k : String}
    (h : (m.lookup k).isSome) : k ∈ m.map (·.1) := by
  by_contra hmem
  rw [lookup_eq_none_of_not_mem hmem] at h
  cases h

theorem keys_map_update {α : Type} (m : List (String × α)) (k : String) (v : α) :
    ((m.map fun p => if p.1 = k then (k, v) else p).map (·.1)) = m.map (·.1) := by
  rw [List.map_map]
  apply List.map_congr_left
  intro p _
  by_cases h : p.1 = k <;> simp [h]

theorem keys_filter_ne {α : Type} (m : List (String × α)) (x : String) :
    ((m.filter fun p => p.1 ≠ x).map (·.1)) = (m.map (·.1)).filter (fun k => k ≠ x) := by
  induction m with
  | nil => rfl
  | cons q t ih =>
    simp only [ne_eq, decide_not] at ih ⊢
    by_cases h : q.1 = x <;> simp [List.filter_cons, h, ih]

theorem nodup_append_singleton {β : Type} {l : List β} {k : β}
    (hnd : l.Nodup) (hk : k ∉ l) : (l ++ [k]).Nodup :=
  List.Nodup.append hnd (List.nodup_singleton k) (by rwa [List.disjoint_singleton])

/-- The LRU cache invariant: the access deque is a duplicate-free
permutation of the cache's keys and the cache respects its capacity. -/
def cacheInv {α : Type} (s : SmartCache α) : Prop :=
  List.Perm (s.cache.map (·.1)) s.access_order
    ∧ s.access_order.Nodup ∧ s.cache.length ≤ s.max_size

theorem perm_erase_append {β : Type} [DecidableEq β] {l₁ l₂ : List β} {k : β}
    (hperm : List.Perm l₁ l₂) (hk : k ∈ l₂) : List.Perm l₁ (l₂.erase k ++ [k]) :=
  (hperm.trans (List.perm_cons_erase hk)).trans
    (List.perm_append_singleton k (l₂.erase k)).symm

theorem cacheInv_get {α : Type} {s : SmartCache α} (k : String) (h : cacheInv s) :
    cacheInv (cacheGet s k).2 := by
  obtain ⟨hperm, hnd, hlen⟩ := h
  unfold cacheGet
  cases hl : s.cache.lookup k
  · exact ⟨hperm, hnd, hlen⟩
  · have hk : k ∈ s.access_order :=
      hperm.mem_iff.mp (mem_of_lookup_isSome (by rw [hl]; rfl))
    exact ⟨perm_erase_append hperm hk,
      nodup_append_singleton (hnd.erase k) hnd.not_mem_erase, hlen⟩

theorem cacheInv_put {α : Type} {s : SmartCache α} (k : String) (v : α) (h : cacheInv s) :
    cacheInv (cachePut s k v) := by
  obtain ⟨hperm, hnd, hlen⟩ := h
  unfold cachePut
  by_cases hmem : (s.cache.lookup k).isSome
  · rw [if_pos hmem]
    have hk : k ∈ s.access_order := hperm.mem_iff.mp (mem_of_lookup_isSome hmem)
    refine ⟨?_, nodup_append_singleton (hnd.erase k) hnd.not_mem_erase, ?_⟩
    · rw [keys_map_update]
      exact perm_erase_append hperm hk
    · simpa using hlen
  · rw [if_neg hmem]
    have hknotin : k ∉ s.cache.map (·.1) := fun hc => hmem (lookup_isSome_of_mem hc)
    by_cases hge : s.cache.length ≥ s.max_size
    · rw [if_pos hge]
      cases horder : s.access_order with
      | nil => exact ⟨hperm, hnd, hlen⟩
      | cons lru rest =>
        rw [horder] at hperm hnd
        have hlru : lru ∉ rest := (List.nodup_cons.mp hnd).1
        have hndrest : rest.Nodup := (List.nodup_cons.mp hnd).2
        have hrest : rest.filter (fun x => decide (x ≠ lru)) = rest :=
          List.filter_eq_self.mpr fun a ha => by
            simp only [decide_eq_true_eq]
            exact fun hEq => hlru (hEq ▸ ha)
        have hdec : (decide (lru ≠ lru)) = false := by simp
        have hcons : (lru :: rest).filter (fun x => decide (x ≠ lru)) = rest := by
          rw [List.filter_cons, hdec]
          simp only [Bool.false_eq_true, if_false]
          exact hrest
        have hfp := hperm.filter (fun x => decide (x ≠ lru))
        rw [hcons] at hfp
        refine ⟨?_, ?_, ?_⟩
        · simp only [List.map_append, keys_filter_ne]
          simpa using hfp.append_right [k]
        · have hkrest : k ∉ rest := fun hkr =>
            hknotin (hperm.mem_iff.mpr (List.mem_cons_of_mem _ hkr))
          exact nodup_append_singleton hndrest hkrest
        · simp only [List.length_append, List.length_cons, List.length_nil]
          have h1 : ((s.cache.filter fun p => p.1 ≠ lru).map (·.1)).length = rest.length := by
            rw [keys_filter_ne]
            exact List.Perm.length_eq (by simpa using hfp)
          rw [List.length_map] at h1
          have h2 : (lru :: rest).length = s.cache.length := by
            rw [← hperm.length_eq, List.length_map]
          simp only [List.length_cons] at h2
          omega
    · rw [if_neg hge]
      push_neg at hge
      refine ⟨?_, ?_, ?_⟩
      · simp only [List.map_append]
        simpa using hperm.append_right [k]
      · have hkord : k ∉ s.access_order := fun hko => hknotin (hperm.mem_iff.mpr hko)
        exact nodup_append_singleton hnd hkord
      · simp only [List.length_append, List.length_cons, List.length_nil]
        omega



/-- One client operation on the cache. -/
inductive CacheOp (α : Type) where
  | get (k : String)
  | put (k : String) (v : α)

/-- State effect of one cache operation. -/
def applyCacheOp {α : Type} (s : SmartCache α) : CacheOp α → SmartCache α
  | .get k => (cacheGet s k).2
  | .put k v => cachePut s k v

/-- A fresh cache of capacity `c`. -/
def emptyCache (α : Type) (c : Nat) : SmartCache α :=
  { cache := [], access_order := [], max_size := c }

theorem cacheGet_max_size {α : Type} (s : SmartCache α) (k : String) :
    (cacheGet s k).2.max_size = s.max_size := by
  unfold cacheGet
  cases s.cache.lookup k <;> rfl

theorem cachePut_max_size {α : Type} (s : SmartCache α) (k : String) (v : α) :
    (cachePut s k v).max_size = s.max_size := by
  unfold cachePut
  split
  · rfl
  · split
    · cases s.access_order <;> rfl
    · rfl

theorem applyCacheOp_max_size {α : Type} (s : SmartCache α) (op : CacheOp α) :
    (applyCacheOp s op).max_size = s.max_size := by
  cases op with
  | get k => exact cacheGet_max_size s k
  | put k v => exact cachePut_max_size s k v

theorem cacheInv_applyOp {α : Type} {s : SmartCache α} (op : CacheOp α) (h : cacheInv s) :
    cacheInv (applyCacheOp s op) := by
  cases op with
  | get k => exact cacheInv_get k h
  | put k v => exact cacheInv_put k v h

theorem foldl_cacheInv {α : Type} :
    ∀ (ops : List (CacheOp α)) (s : SmartCache α), cacheInv s →
      cacheInv (ops.foldl applyCacheOp s) := by
  intro ops
  induction ops with
  | nil => intro s h; exact h
  | cons op t ih => intro s h; exact ih _ (cacheInv_applyOp op h)

theorem foldl_max_size {α : Type} :
    ∀ (ops : List (CacheOp α)) (s : SmartCache α),
      (ops.foldl applyCacheOp s).max_size = s.max_size := by
  intro ops
  induction ops with
  | nil => intro s; rfl
  | cons op t ih => intro s; rw [List.foldl_cons, ih, applyCacheOp_max_size]

/-- C9: after any sequence of `get` and `put` operations starting from an
empty `SmartCache` of capacity `c`, the cache holds at most `c` entries and
the access-order deque contains exactly the keys currently present in the
cache, each exactly once. -/
theorem C9_cache_invariant {α : Type} (c : Nat) (ops : List (CacheOp α)) :
    ((ops.foldl applyCacheOp (emptyCache α c)).cache.length ≤ c)
      ∧ List.Perm ((ops.foldl applyCacheOp (emptyCache α c)).access_order)
          ((ops.foldl applyCacheOp (emptyCache α c)).cache.map (·.1))
      ∧ (ops.foldl applyCacheOp (emptyCache α c)).access_order.Nodup := by
  have hinv : cacheInv (ops.foldl applyCacheOp (emptyCache α c)) :=
    foldl_cacheInv ops _ ⟨List.Perm.refl _, List.nodup_nil, by simp [emptyCache]⟩
  obtain ⟨hperm, hnd, hlen⟩ := hinv
  exact ⟨hlen.trans_eq (foldl_max_size ops (emptyCache α c)), hperm.symm, hnd⟩

theorem fill_lemma {α : Type} (v : String → α) :
    ∀ (ks : List String) (s : SmartCache α),
      s.access_order = s.cache.map (·.1) →
      (s.cache.map (·.1) ++ ks).Nodup →
      s.cache.length + ks.length ≤ s.max_size →
      (ks.foldl (fun t k => cachePut t k (v k)) s).cache.map (·.1)
          = s.cache.map (·.1) ++ ks
        ∧ (ks.foldl (fun t k => cachePut t k (v k)) s).access_order
          = s.access_order ++ ks
        ∧ (ks.foldl (fun t k => cachePut t k (v k)) s).cache.length
          = s.cache.length + ks.length
        ∧ (ks.foldl (fun t k => cachePut t k (v k)) s).max_size = s.max_size := by
  intro ks
  induction ks with
  | nil => intro s _ _ _; simp
  | cons k t ih =>
    intro s hord hnd hcap
    have hknotin : k ∉ s.cache.map (·.1) := by
      rw [List.nodup_append] at hnd
      exact fun hk => hnd.2.2 hk (List.mem_cons_self k t)
    have hlookup : s.cache.lookup k = none := lookup_eq_none_of_not_mem hknotin
    have hlt : ¬ s.cache.length ≥ s.max_size := by
      simp only [List.length_cons] at hcap
      omega
    have hput : cachePut s k (v k)
        = { s with cache := s.cache ++ [(k, v k)], access_order := s.access_order ++ [k] } := by
      unfold cachePut
      rw [hlookup]
      rw [if_neg (by simp), if_neg hlt]
    rw [List.foldl_cons, hput]
    have hrec := ih { s with cache := s.cache ++ [(k, v k)], access_order := s.access_order ++ [k] }
      (by simp [hord]) (by simpa using hnd) (by simp only [List.length_append, List.length_cons, List.length_nil] at hcap ⊢; omega)
    simp only [List.map_append, List.length_append] at hrec
    obtain ⟨h1, h2, h3, h4⟩ := hrec
    refine ⟨?_, ?_, ?_, h4⟩
    · rw [h1]; simp
    · rw [h2]; simp
    · rw [h3]; simp only [List.length_cons, List.length_append, List.length_nil]; omega



/-- C5: starting from an empty cache of capacity `C = |mid| + 1`, after
inserting the `C + 1` distinct keys `k₀ :: mid ++ [klast]` via `put`, the
least-recently-used key `k₀` has been evicted and a subsequent `get` on it
is a cache miss. -/
theorem C5_lru_eviction {α : Type} (v : String → α) (C : Nat) (k₀ klast : String) (mid : List String)
    (hnd : (k₀ :: (mid ++ [klast])).Nodup)
    (hC : mid.length + 1 = C) :
    (cacheGet (((k₀ :: mid) ++ [klast]).foldl (fun t k => cachePut t k (v k))
      (emptyCache α C)) k₀).1 = none := by
  have hk0 : k₀ ∉ mid ++ [klast] := (List.nodup_cons.mp hnd).1
  have hnd2 : (mid ++ [klast]).Nodup := (List.nodup_cons.mp hnd).2
  have hmidnd : mid.Nodup := (List.nodup_append.mp hnd2).1
  have hdisj : mid.Disjoint [klast] := (List.nodup_append.mp hnd2).2.2
  have hnd' : (([] : List String) ++ (k₀ :: mid)).Nodup := by
    simp only [List.nil_append, List.nodup_cons]
    exact ⟨fun hk => hk0 (List.mem_append_left _ hk), hmidnd⟩
  obtain ⟨hkeys, hord, hlen, hmax⟩ := fill_lemma v (k₀ :: mid) (emptyCache α C)
    rfl (by simpa [emptyCache] using hnd')
    (by rw [show (emptyCache α C).cache.length = 0 from rfl,
          show (emptyCache α C).max_size = C from rfl, List.length_cons]
        omega)
  rw [List.foldl_append]
  set s' := (k₀ :: mid).foldl (fun t k => cachePut t k (v k)) (emptyCache α C) with hs'
  simp only [List.foldl_cons, List.foldl_nil]
  have hkeys' : s'.cache.map (·.1) = k₀ :: mid := by simpa [emptyCache] using hkeys
  have hord' : s'.access_order = k₀ :: mid := by simpa [emptyCache] using hord
  have hlen' : s'.cache.length = C := by
    rw [hlen, show (emptyCache α C).cache.length = 0 from rfl, List.length_cons]
    omega
  have hmax' : s'.max_size = C := by simpa [emptyCache] using hmax
  have hklast : klast ∉ s'.cache.map (·.1) := by
    rw [hkeys']
    intro hk
    rcases List.mem_cons.mp hk with hEq | hk2
    · exact hk0 (hEq ▸ List.mem_append_right _ (List.mem_singleton.mpr rfl))
    · exact hdisj hk2 (List.mem_singleton.mpr rfl)
  have hput : cachePut s' klast (v klast)
      = { s' with cache := (s'.cache.filter fun p => p.1 ≠ k₀) ++ [(klast, v klast)],
                  access_order := mid ++ [klast] } := by
    unfold cachePut
    rw [lookup_eq_none_of_not_mem hklast]
    rw [if_neg (by simp), if_pos (by rw [hlen', hmax'])]
    rw [hord']
  rw [hput]
  have hk0new : k₀ ∉ (((s'.cache.filter fun p => p.1 ≠ k₀) ++ [(klast, v klast)]).map (·.1)) := by
    simp only [List.map_append, List.mem_append, keys_filter_ne]
    rintro (hmem | hmem)
    · rcases List.mem_filter.mp hmem with ⟨_, hpred⟩
      simp at hpred
    · have : k₀ = klast := by simpa using hmem
      exact hk0 (this ▸ List.mem_append_right _ (List.mem_singleton.mpr rfl))
  unfold cacheGet
  rw [lookup_eq_none_of_not_mem hk0new]


/-- Witness for claim C5 at capacity 2 with keys `a`, `b`, `c`. -/
theorem C5_lru_eviction_witness :
    (cacheGet (((("a" : String) :: ["b"]) ++ ["c"]).foldl
      (fun t k => cachePut t k ((fun _ => (0 : Nat)) k)) (emptyCache Nat 2)) "a").1 = none :=
  C5_lru_eviction (fun _ => (0 : Nat)) 2 "a" "c" ["b"] (by decide) rfl

/-! ## Claim C7: distinctness of entity ids within one extraction pass -/

theorem nodup_ids_of_nodup_startlines {fp : String} {es : List CodeEntity}
    (hid : ∀ e ∈ es, e.id = mkId fp e.start_line)
    (hnd : (es.map (·.start_line)).Nodup) : (es.map (·.id)).Nodup := by
  have hmap : es.map (·.id) = (es.map (·.start_line)).map (mkId fp) := by
    rw [List.map_map]
    exact List.map_congr_left hid
  rw [hmap]
  exact hnd.map (mkId_injective fp)

theorem parse_rust_id_eq (fp content : String) :
    ∀ e ∈ parse_rust fp content, e.id = mkId fp e.start_line := by
  intro e he
  simp only [parse_rust, List.mem_append, List.mem_map] at he
  rcases he with ⟨x, _, hEq⟩ | ⟨x, _, hEq⟩ <;>
    · obtain ⟨a, b, c, d⟩ := x
      rw [← hEq]

theorem parse_typescript_id_eq (fp content : String) :
    ∀ e ∈ parse_typescript fp content, e.id = mkId fp e.start_line := by
  intro e he
  simp only [parse_typescript, List.mem_append, List.mem_map] at he
  rcases he with ⟨x, _, hEq⟩ | ⟨x, _, hEq⟩ <;>
    · obtain ⟨a, b, c, d⟩ := x
      rw [← hEq]

theorem nodup_filterMap_ids {f : Nat → Option CodeEntity} {g : Nat → String}
    (hg : Function.Injective g)
    (hf : ∀ k e, f k = some e → e.id = g k)
    (l : List Nat) (hl : l.Nodup) :
    ((l.filterMap f).map (·.id)).Nodup := by
  rw [List.map_filterMap]
  refine List.Nodup.filterMap ?_ hl
  intro a b c hca hcb
  rw [Option.mem_def, Option.map_eq_some'] at hca hcb
  obtain ⟨e₁, he₁, hc₁⟩ := hca
  obtain ⟨e₂, he₂, hc₂⟩ := hcb
  apply hg
  rw [← hf a e₁ he₁, ← hf b e₂ he₂, hc₁, hc₂]

/-- The line-chunking fallback always emits pairwise distinct ids (its
chunks start at distinct lines). -/
theorem fallbackChunk_ids_nodup (fp content : String) :
    ((fallbackChunk fp content).map (·.id)).Nodup := by
  unfold fallbackChunk
  refine nodup_filterMap_ids (g := fun k => mkId fp (50 * k)) ?_ ?_ _ (List.nodup_range _)
  · intro a b h
    have := mkId_injective fp h
    omega
  · intro k e h
    simp only at h
    split at h
    · cases h
    · injection h with h'
      rw [← h']

/-- C7 counterexample: the Rust strategy applied to one line holding two
function declarations emits two entities with the same id `a.rs:1`: ids are
derived from `(file, start line)` alone, so same-line declarations
collide. -/
theorem C7_counterexample :
    (parse_rust "a.rs" "fn f(){} fn g(){}").map (·.id) = ["a.rs:1", "a.rs:1"]
      ∧ ¬ ((parse_rust "a.rs" "fn f(){} fn g(){}").map (·.id)).Nodup := by
  constructor <;> decide

/-- C7 amended: within a single extraction pass the emitted ids are pairwise
distinct *provided* no two extracted declarations start on the same source
line (for the Rust and TS/JS regex strategies, whose ids are
`file:start_line`); the line-chunking fallback always yields pairwise
distinct ids. -/
theorem C7_distinct_ids :
    (∀ fp content, ((parse_rust fp content).map (·.start_line)).Nodup →
        ((parse_rust fp content).map (·.id)).Nodup)
      ∧ (∀ fp content, ((parse_typescript fp content).map (·.start_line)).Nodup →
        ((parse_typescript fp content).map (·.id)).Nodup)
      ∧ (∀ fp content, ((fallbackChunk fp content).map (·.id)).Nodup) :=
  ⟨fun fp content hnd => nodup_ids_of_nodup_startlines (parse_rust_id_eq fp content) hnd,
   fun fp content hnd => nodup_ids_of_nodup_startlines (parse_typescript_id_eq fp content) hnd,
   fun fp content => fallbackChunk_ids_nodup fp content⟩

/-- Witness for the amended claim C7: two Rust declarations on distinct
lines receive distinct ids. -/
theorem C7_distinct_ids_witness :
    ((parse_rust "w.rs" "fn f() {}\nfn g() {}").map (·.id)).Nodup :=
  C7_distinct_ids.1 "w.rs" "fn f() {}\nfn g() {}" (by decide)

/-! ## Claim C8: not-ready sentinels -/

/-- C8: every public operation invoked while the readiness flag is false
returns its explicit not-ready sentinel (empty list, sentinel string, empty
stats, or error value) and leaves the state unchanged; no exception path
exists in these branches (the model functions are total). -/
theorem C8_not_ready_sentinels (collab : Collab) (pyAst : PyAstParser) (s : BrainState)
    (text content kind context q path fileContent pattern entityName : String) (n limit : Nat)
    (h : s.ready = false) :
    queryOp collab s text n = ([], s)
      ∧ rememberOp collab s content kind context = ("Brain not ready", s)
      ∧ recallOp collab s q limit = ([], s)
      ∧ indexFileOp collab pyAst s path fileContent = s
      ∧ getStats s = { ready := false }
      ∧ purgeOp s pattern = ("Brain initializing", s)
      ∧ graphOp s entityName = GraphResult.err "Brain initializing" := by
  have hb : (!s.ready) = true := by rw [h]; rfl
  refine ⟨?_, ?_, ?_, ?_, ?_, ?_, ?_⟩ <;>
    simp only [queryOp, rememberOp, recallOp, indexFileOp, getStats, purgeOp, graphOp,
      hb, if_true, ite_true]

/-- A collaborator record with inert functions, for closed witnesses. -/
def noopCollab : Collab :=
  ⟨fun _ => [], fun _ _ _ => [], fun _ _ _ => [], 0⟩

/-- A Python-AST collaborator that extracts nothing, for closed witnesses. -/
def noopPyAst : PyAstParser := fun _ _ => .ok []

/-- Witness for claim C8 on a fresh (not yet ready) state. -/
theorem C8_not_ready_sentinels_witness :
    queryOp noopCollab {} "find the cache" 5 = ([], {})
      ∧ rememberOp noopCollab {} "a fact" "insight" "" = ("Brain not ready", {})
      ∧ recallOp noopCollab {} "query" 3 = ([], {})
      ∧ indexFileOp noopCollab noopPyAst {} "m.py" "x = 1" = {}
      ∧ getStats {} = { ready := false }
      ∧ purgeOp {} "legacy" = ("Brain initializing", {})
      ∧ graphOp {} "main" = GraphResult.err "Brain initializing" :=
  C8_not_ready_sentinels noopCollab noopPyAst {} "find the cache" "a fact" "insight" ""
    "query" "m.py" "x = 1" "legacy" "main" 5 3 rfl

/-! ## Claim C10: unknown extensions index nothing -/

/-- C10: indexing a file whose suffix is not one of `.py`, `.rs`, `.ts`,
`.tsx`, `.js` returns with the state unchanged, and for every supported
suffix the parser dispatch never takes the unknown-extension fallback route
(the chunking fallback is reachable only through a parse failure). -/
theorem C10_unknown_extension_inert (collab : Collab) (pyAst : PyAstParser) (s : BrainState)
    (path fileContent : String) (h1 : pathSuffix path ∉ extensionParsers) :
    indexFileOp collab pyAst s path fileContent = s
      ∧ ∀ p c, pathSuffix p ∈ extensionParsers →
          (parseFileR pyAst p c).2 ≠ ParseRoute.unknownExt := by
  constructor
  · have h2 : pathSuffix path ∉ ([".rs", ".ts", ".tsx", ".js"] : List String) := by
      intro hmem
      apply h1
      simp only [extensionParsers]
      simp only [List.mem_cons, List.mem_singleton, List.not_mem_nil, or_false] at hmem ⊢
      tauto
    by_cases hr : s.ready
    · have hb : (!s.ready) = false := by rw [hr]; rfl
      simp only [indexFileOp, hb, Bool.false_eq_true, if_false]
      rw [if_pos ⟨h1, h2⟩]
    · have hb : (!s.ready) = true := by
        cases hx : s.ready
        · rfl
        · exact absurd hx hr
      simp only [indexFileOp, hb, if_true, ite_true]
  · intro p c hmem
    simp only [parseFileR]
    rw [if_neg (not_not_intro hmem)]
    by_cases hpy : pathSuffix p = ".py"
    · rw [if_pos hpy]
      unfold parse_python
      cases pyAst p c <;> exact fun hx => ParseRoute.noConfusion hx
    · rw [if_neg hpy]
      by_cases hrs : pathSuffix p = ".rs"
      · rw [if_pos hrs]; exact fun hx => ParseRoute.noConfusion hx
      · rw [if_neg hrs]
        by_cases hts : pathSuffix p = ".ts" ∨ pathSuffix p = ".tsx"
        · rw [if_pos hts]; exact fun hx => ParseRoute.noConfusion hx
        · rw [if_neg hts]; exact fun hx => ParseRoute.noConfusion hx

/-- Witness for claim C10: indexing `notes.txt` on a ready state changes
nothing. -/
theorem C10_unknown_extension_inert_witness :
    indexFileOp noopCollab noopPyAst { ready := true } "notes.txt" "hello" = { ready := true }
      ∧ ∀ p c, pathSuffix p ∈ extensionParsers →
          (parseFileR noopPyAst p c).2 ≠ ParseRoute.unknownExt :=
  C10_unknown_extension_inert noopCollab noopPyAst { ready := true } "notes.txt" "hello"
    (by decide)

end BrainV2
